import Mathlib

/-!
# Verification of the mproxy-dispatcher UDP client

A shallow embedding of src/client/src/lib.rs: the socket binder
(target_socket_interface), the backup manager (backup_data) and the
dispatcher loop (client_socket_stream).  Effects are modelled as an explicit
event trace; Rust panics and propagated io errors are both modelled as
Except.error.  Machine integers are Nat/Int; SystemTime is an Int number of
seconds since the Unix epoch; byte strings are List Nat.  The model follows
the release build: statements under cfg(debug_assertions) are omitted.
-/

set_option autoImplicit false

/-- The size of the read buffer in the dispatcher loop (const BUFSIZE). -/
def BUFSIZE : Nat := 8096

/-- An IP address, as much of it as the client observes: family, whether it
is a multicast address, and an abstract identity.  The unspecified address of
each family is distinguished because the code binds and connects to it. -/
inductive Ip where
  | unspec (v6 : Bool)
  | addr (v6 : Bool) (mcast : Bool) (id : Nat)
deriving DecidableEq

/-- Rust IpAddr::is_ipv6 / SocketAddr::is_ipv6. -/
def Ip.isV6 : Ip → Bool
  | .unspec v6 => v6
  | .addr v6 _ _ => v6

/-- Rust IpAddr::is_multicast; the unspecified address is not multicast. -/
def Ip.isMulticast : Ip → Bool
  | .unspec _ => false
  | .addr _ m _ => m

/-- A resolved socket address (ip, port). -/
structure SockAddr where
  ip : Ip
  port : Nat
deriving DecidableEq

def SockAddr.isV6 (a : SockAddr) : Bool := a.ip.isV6

/-- The three operating systems the conditional compilation in
target_socket_interface distinguishes. -/
inductive Platform where
  | linux
  | windows
  | macos
deriving DecidableEq

/-- An operation performed on the per-target UDP socket during setup. -/
inductive SockOp where
  | bind (a : SockAddr)
  | connect (a : SockAddr)
  | joinV4 (ip : Ip)
  | joinV6 (ip : Ip) (itf : Nat)
deriving DecidableEq

/-- The environment the socket binder runs against: name resolution and the
possible failures of the OS socket calls, plus the result of the macos
default_net::get_default_interface query. -/
structure NetEnv where
  resolve : String → Option SockAddr
  bindFails : String → Bool
  connectFails : String → Bool
  joinFails : String → Bool
  defaultItf : Option Nat

/-- The unspecified bind address of the matching family, port 0
(an OS-assigned ephemeral port). -/
def unspecBind (a : SockAddr) : SockAddr := ⟨Ip.unspec a.ip.isV6, 0⟩

/-- Model of target_socket_interface (src/client/src/lib.rs lines 84-146).
Returns the successful socket operations in execution order next to either
the resolved address or the panic message.  The commented-out connect on
line 99 of the source is not modelled; on macos the interface query runs
where the let binding sits, before the connect. -/
def target_socket_interface (p : Platform) (net : NetEnv) (server_addr : String) :
    List SockOp × Except String SockAddr :=
  match net.resolve server_addr with
  | none => ([], Except.error "parsing socket address")
  | some target_addr =>
    if net.bindFails server_addr then ([], Except.error "binding client socket")
    else
      let ops0 : List SockOp := [SockOp.bind (unspecBind target_addr)]
      if target_addr.ip.isMulticast then
        if target_addr.ip.isV6 = false then
          if net.joinFails server_addr then (ops0, Except.error "join multicast v4")
          else (ops0 ++ [SockOp.joinV4 target_addr.ip], Except.ok target_addr)
        else
          match p, net.defaultItf with
          | .macos, none => (ops0, Except.error "Getting default network interface")
          | _, _ =>
            let itf : Nat := match p with
              | .macos => net.defaultItf.getD 0
              | _ => 0
            let connDest : SockAddr := match p with
              | .windows => target_addr
              | _ => ⟨Ip.unspec true, target_addr.port⟩
            if net.connectFails server_addr then (ops0, Except.error "connect")
            else if net.joinFails server_addr then
              (ops0 ++ [SockOp.connect connDest], Except.error "join multicast v6")
            else
              (ops0 ++ [SockOp.connect connDest, SockOp.joinV6 target_addr.ip itf],
                Except.ok target_addr)
      else (ops0, Except.ok target_addr)

/-! ## Calendar arithmetic

The backup manager names files after the current UTC date and, during the
sweep, converts a parsed date back to its midnight-UTC instant.  Both
directions use the standard civil-calendar/day-number conversion (the same
proleptic Gregorian arithmetic the time crate implements). -/

/-- Gregorian leap year. -/
def isLeap (y : Int) : Bool := y % 4 = 0 && (y % 100 ≠ 0 || y % 400 = 0)

/-- Days in a month of the proleptic Gregorian calendar. -/
def daysInMonth (y : Int) (m : Nat) : Nat :=
  if m = 2 then (if isLeap y then 29 else 28)
  else if m = 4 ∨ m = 6 ∨ m = 9 ∨ m = 11 then 30 else 31

/-- Days since 1970-01-01 of the civil date y-m-d (may be negative). -/
def daysFromCivil (y : Int) (m d : Nat) : Int :=
  let y1 : Int := if m ≤ 2 then y - 1 else y
  let era : Int := Int.fdiv y1 400
  let yoe : Int := y1 - era * 400
  let mp : Nat := (m + 9) % 12
  let doy : Int := ((153 * mp + 2) / 5 + (d - 1) : Nat)
  let doe : Int := yoe * 365 + yoe / 4 - yoe / 100 + doy
  era * 146097 + doe - 719468

/-- The civil date (y, m, d) of a day number counted from 1970-01-01. -/
def civilFromDays (z0 : Int) : Int × Nat × Nat :=
  let z : Int := z0 + 719468
  let era : Int := Int.fdiv z 146097
  let doe : Nat := (z - era * 146097).toNat
  let yoe : Nat := (doe - doe / 1460 + doe / 36524 - doe / 146096) / 365
  let doy : Nat := doe - (365 * yoe + yoe / 4 - yoe / 100)
  let mp : Nat := (5 * doy + 2) / 153
  let d : Nat := doy - (153 * mp + 2) / 5 + 1
  let m : Nat := if mp < 10 then mp + 3 else mp - 9
  ((era * 400 + yoe : Int) + (if m ≤ 2 then 1 else 0), m, d)

/-- Decimal digits of a Nat as ASCII bytes, most significant first
(fuel-indexed helper). -/
def decDigitsAux : Nat → Nat → List Nat
  | 0, _ => []
  | _ + 1, 0 => []
  | fuel + 1, n => decDigitsAux fuel (n / 10) ++ [n % 10 + 48]

/-- Decimal digits of a positive Nat as ASCII bytes; empty for 0. -/
def decDigits (n : Nat) : List Nat := decDigitsAux (n + 1) n

/-- Decimal rendering of a Nat (the digit 0 for 0). -/
def decRepr (n : Nat) : List Nat := if n = 0 then [48] else decDigits n

/-- Zero-padded decimal rendering to a minimum width, as in the format
specifiers 04 and 02 of the format! call in backup_data. -/
def padDigits (w n : Nat) : List Nat :=
  List.replicate (w - (decRepr n).length) 48 ++ decRepr n

/-- Rendering of a year with width-4 zero padding ({:04} on an i32: the sign
participates in the width). -/
def fmtYear (y : Int) : List Nat :=
  if 0 ≤ y then padDigits 4 y.toNat else 45 :: padDigits 3 (-y).toNat

/-- ASCII bytes of a Lean string (used to write concrete file names). -/
def strBytes (s : String) : List Nat := s.toList.map Char.toNat

/-- The YYYY-MM-DD rendering of the UTC date of instant now (the
current_date string built in backup_data). -/
def currentDateBytes (now : Int) : List Nat :=
  match civilFromDays (Int.fdiv now 86400) with
  | (y, m, d) => fmtYear y ++ [45] ++ padDigits 2 m ++ [45] ++ padDigits 2 d

/-- The backup file name YYYY-MM-DD.log for instant now. -/
def dateFileName (now : Int) : List Nat := currentDateBytes now ++ strBytes ".log"

/-! ## Backup manager -/

/-- One entry of the ./ais_backup directory: file name bytes and content. -/
structure DirEntry where
  name : List Nat
  content : List Nat
deriving DecidableEq

/-- The state of the backup directory: whether it exists, and its entries in
listing order. -/
structure BackupFs where
  dirExists : Bool
  entries : List DirEntry
deriving DecidableEq

/-- The environment of the sweep: which fs::remove_file calls fail (their
results are discarded by the code). -/
structure BackupEnv where
  deleteFails : List Nat → Bool

/-- One read of the input source: Ok with the bytes read, or Err. -/
inductive ReadResult where
  | ok (bytes : List Nat)
  | err
deriving DecidableEq

/-- An observable action of the client, in execution order. -/
inductive Ev where
  | sockOp (addr : String) (op : SockOp)
  | logLine (path : String) (addr : String)
  | openInput
  | readEv (r : ReadResult)
  | createDir
  | appendFile (name : List Nat) (data : List Nat)
  | removeFile (name : List Nat)
  | sendTo (target : Nat) (dest : SockAddr) (payload : List Nat)
  | send (target : Nat) (payload : List Nat)
  | teeWrite (payload : List Nat)
  | teeFlush
deriving DecidableEq

/-- Whether an event is a network send (either send_to or send). -/
def Ev.isSend : Ev → Bool
  | .sendTo _ _ _ => true
  | .send _ _ => true
  | _ => false

/-- Whether an event is backup file-system io (directory creation, file
append, file removal). -/
def Ev.isFsEv : Ev → Bool
  | .createDir => true
  | .appendFile _ _ => true
  | .removeFile _ => true
  | _ => false

/-- Whether an event belongs to target setup (a socket operation or the
per-target log line). -/
def Ev.isSetup : Ev → Bool
  | .sockOp _ _ => true
  | .logLine _ _ => true
  | _ => false

/-- The bytes an event contributes to standard output.  The tee write
contributes the chunk; the println! in the setup loop contributes its
formatted line.  (Stdout is line buffered and the tee path flushes per
chunk, so bytes reach stdout in event order.) -/
def logLineBytes (path addr : String) : List Nat :=
  strBytes ("logging from " ++ path ++ ": sending to " ++ addr) ++ [10]

def Ev.stdoutBytes : Ev → List Nat
  | .teeWrite p => p
  | .logLine path addr => logLineBytes path addr
  | _ => []

/-- The ".log" suffix as bytes. -/
def logSuffix : List Nat := strBytes ".log"

/-- Rust str::ends_with applied to the ".log" suffix. -/
def endsLog (n : List Nat) : Bool := logSuffix.isSuffixOf n

/-- ASCII digit test. -/
def isDigit (b : Nat) : Bool := 48 ≤ b && b ≤ 57

/-- Model of time's Date::parse with the format description
[year]-[month]-[day]: exactly ten bytes, four year digits, two month digits
and two day digits separated by hyphens, with the month and day validated
against the calendar.  Returns (year, month, day). -/
def parseDate (bs : List Nat) : Option (Int × Nat × Nat) :=
  match bs with
  | [a, b, c, d, h1, e, f, h2, g, i] =>
    if isDigit a && isDigit b && isDigit c && isDigit d && (h1 == 45) &&
        isDigit e && isDigit f && (h2 == 45) && isDigit g && isDigit i then
      let y : Int := ((a - 48) * 1000 + (b - 48) * 100 + (c - 48) * 10 + (d - 48) : Nat)
      let mo : Nat := (e - 48) * 10 + (f - 48)
      let dd : Nat := (g - 48) * 10 + (i - 48)
      if 1 ≤ mo ∧ mo ≤ 12 ∧ 1 ≤ dd ∧ dd ≤ daysInMonth y mo then some (y, mo, dd)
      else none
    else none
  | _ => none

/-- Appending data to the named file in the directory listing, creating the
file (at the end of the listing) when absent: the OpenOptions
create+append+write_all step of backup_data. -/
def appendEntry (fn data : List Nat) : List DirEntry → List DirEntry
  | [] => [⟨fn, data⟩]
  | e :: rest =>
    if e.name = fn then ⟨e.name, e.content ++ data⟩ :: rest
    else e :: appendEntry fn data rest

/-- Keeping the head entry while sweeping the rest. -/
def keepCons (e : DirEntry) (r : List Ev × Except String (List DirEntry)) :
    List Ev × Except String (List DirEntry) :=
  (r.1, r.2.map (fun l => e :: l))

/-- Model of the retention sweep of backup_data (src/client/src/lib.rs lines
253-280): for each directory entry in listing order, skip names not ending
in ".log"; slice the first ten bytes (a Rust panic when the name is
shorter); parse them as a date (silently skipping parse failures); delete
the file when its midnight-UTC instant is strictly before
now - days*86400 seconds, ignoring deletion failures.  Returns the
successful removals and either the surviving listing or the panic
message. -/
def sweep (env : BackupEnv) (now : Int) (days : Nat) :
    List DirEntry → List Ev × Except String (List DirEntry)
  | [] => ([], Except.ok [])
  | e :: rest =>
    if endsLog e.name = false then keepCons e (sweep env now days rest)
    else if e.name.length < 10 then
      ([], Except.error "byte index 10 is out of bounds")
    else
      match parseDate (List.take 10 e.name) with
      | some (y, mo, d) =>
        if daysFromCivil y mo d * 86400 < now - (days : Int) * 86400 then
          if env.deleteFails e.name then keepCons e (sweep env now days rest)
          else
            (Ev.removeFile e.name :: (sweep env now days rest).1,
              (sweep env now days rest).2)
        else keepCons e (sweep env now days rest)
      | none => keepCons e (sweep env now days rest)

/-- Model of backup_data (src/client/src/lib.rs lines 228-282): ensure the
backup directory exists, append the chunk to the current UTC date's .log
file, and, when a backup interval is supplied, run the retention sweep over
the directory listing in the same call. -/
def backup_data (env : BackupEnv) (now : Int) (data : List Nat)
    (backup_interval : Option Nat) (fs : BackupFs) :
    List Ev × Except String BackupFs :=
  let fname := dateFileName now
  let ents1 := appendEntry fname data fs.entries
  let evs0 : List Ev := [Ev.createDir, Ev.appendFile fname data]
  match backup_interval with
  | some days =>
    (evs0 ++ (sweep env now days ents1).1,
      (sweep env now days ents1).2.map fun ents => ⟨true, ents⟩)
  | none => (evs0, Except.ok ⟨true, ents1⟩)

/-! ## Dispatcher -/

/-- What the loop does with a chunk of c bytes just read (c > 0): when
c == 1 the code runs String::from_utf8(..).unwrap() — a panic when the byte
is not valid single-byte UTF-8 (128 or above) — and skips the chunk when it
equals the newline; every other chunk is forwarded. -/
inductive ChunkAction where
  | invalidUtf8
  | skip
  | forward
deriving DecidableEq

def classifyChunk : List Nat → ChunkAction
  | [b] => if 128 ≤ b then .invalidUtf8 else if b = 10 then .skip else .forward
  | _ => .forward

/-- The per-target sends of one chunk, in target-registration order
(src/client/src/lib.rs lines 202-212): a send_to with the resolved
destination unless the target is IPv6 multicast, in which case a plain send
on the pre-connected socket. -/
def sendEvs (targets : List SockAddr) (chunk : List Nat) : List Ev :=
  targets.enum.map fun it =>
    if it.2.ip.isV6 && it.2.ip.isMulticast then Ev.send it.1 chunk
    else Ev.sendTo it.1 it.2 chunk

/-- The tee of one chunk: a write of the whole chunk to stdout followed by
an immediate flush, when tee is enabled. -/
def teeEvs (tee : Bool) (chunk : List Nat) : List Ev :=
  if tee then [Ev.teeWrite chunk, Ev.teeFlush] else []

/-- The body of one loop iteration for a forwarded chunk
(src/client/src/lib.rs lines 197-220): back the chunk up when a backup
interval is present (propagating its io errors), then send to every target,
then tee. -/
def processChunk (env : BackupEnv) (tee : Bool) (backup_interval : Option Nat)
    (targets : List SockAddr) (now : Int) (chunk : List Nat) (fs : BackupFs) :
    List Ev × Except String BackupFs :=
  let b := if backup_interval.isSome then backup_data env now chunk backup_interval fs
           else ([], Except.ok fs)
  match b.2 with
  | Except.error m => (b.1, Except.error m)
  | Except.ok fs1 =>
    (b.1 ++ sendEvs targets chunk ++ teeEvs tee chunk, Except.ok fs1)

/-- The dispatcher loop (src/client/src/lib.rs lines 184-222) over the
successive results of reader.read: a read of zero bytes breaks the loop; a
failed read ends the while-let, after which the function returns Ok; a lone
newline is skipped; every other chunk is processed by processChunk.  The
trace records every read result. -/
def streamLoop (env : BackupEnv) (tee : Bool) (backup_interval : Option Nat)
    (targets : List SockAddr) (now : Int) :
    List ReadResult → BackupFs → List Ev × Except String BackupFs
  | [], fs => ([], Except.ok fs)
  | .err :: _, fs => ([Ev.readEv .err], Except.ok fs)
  | .ok [] :: _, fs => ([Ev.readEv (.ok [])], Except.ok fs)
  | .ok (b :: bs) :: rest, fs =>
    match classifyChunk (b :: bs) with
    | .invalidUtf8 =>
      ([Ev.readEv (.ok (b :: bs))], Except.error "stream did not contain valid utf-8")
    | .skip =>
      (Ev.readEv (.ok (b :: bs)) :: (streamLoop env tee backup_interval targets now rest fs).1,
        (streamLoop env tee backup_interval targets now rest fs).2)
    | .forward =>
      match (processChunk env tee backup_interval targets now (b :: bs) fs).2 with
      | Except.error m =>
        (Ev.readEv (.ok (b :: bs)) :: (processChunk env tee backup_interval targets now (b :: bs) fs).1,
          Except.error m)
      | Except.ok fs1 =>
        (Ev.readEv (.ok (b :: bs)) ::
          ((processChunk env tee backup_interval targets now (b :: bs) fs).1 ++
            (streamLoop env tee backup_interval targets now rest fs1).1),
          (streamLoop env tee backup_interval targets now rest fs1).2)

/-- The chunks the loop forwards: the successive successful non-empty reads
up to the first read failure, end of stream, or panic, without the lone
newline chunks. -/
def forwardedChunks : List ReadResult → List (List Nat)
  | [] => []
  | .err :: _ => []
  | .ok [] :: _ => []
  | .ok (b :: bs) :: rest =>
    match classifyChunk (b :: bs) with
    | .invalidUtf8 => []
    | .skip => forwardedChunks rest
    | .forward => (b :: bs) :: forwardedChunks rest

/-- The setup loop of client_socket_stream (src/client/src/lib.rs lines
150-162): bind each requested destination in request order, printing one log
line per bound target, and stop at the first failure. -/
def setupTargets (p : Platform) (net : NetEnv) (path : String) :
    List String → List Ev × Except String (List SockAddr)
  | [] => ([], Except.ok [])
  | s :: rest =>
    match (target_socket_interface p net s).2 with
    | Except.error m =>
      ((target_socket_interface p net s).1.map (Ev.sockOp s), Except.error m)
    | Except.ok a =>
      ((target_socket_interface p net s).1.map (Ev.sockOp s) ++ [Ev.logLine path s] ++
          (setupTargets p net path rest).1,
        (setupTargets p net path rest).2.map fun ts => a :: ts)

/-- Model of client_socket_stream (src/client/src/lib.rs lines 150-224):
bind all targets, open the input (stdin for the path "-", otherwise the
file), then run the dispatcher loop.  The final BackupFs stands for the
state of the backup directory. -/
def client_socket_stream (p : Platform) (net : NetEnv) (env : BackupEnv)
    (path : String) (server_addrs : List String) (tee : Bool)
    (backup_interval : Option Nat) (reads : List ReadResult) (now : Int)
    (fs : BackupFs) : List Ev × Except String BackupFs :=
  match (setupTargets p net path server_addrs).2 with
  | Except.error m => ((setupTargets p net path server_addrs).1, Except.error m)
  | Except.ok targets =>
    ((setupTargets p net path server_addrs).1 ++
        Ev.openInput :: (streamLoop env tee backup_interval targets now reads fs).1,
      (streamLoop env tee backup_interval targets now reads fs).2)

/-! ## Lemmas about the sweep -/

/-- The condition under which the sweep removes a directory entry: the name
ends in ".log", its first ten bytes parse as a date strictly older than the
cutoff, and the fs::remove_file call succeeds. -/
def removedBySweep (env : BackupEnv) (now : Int) (days : Nat) (e : DirEntry) : Bool :=
  endsLog e.name &&
    (match parseDate (List.take 10 e.name) with
     | some (y, mo, d) =>
       decide (daysFromCivil y mo d * 86400 < now - (days : Int) * 86400)
     | none => false) &&
    !env.deleteFails e.name

theorem sweep_evs_removeFile (env : BackupEnv) (now : Int) (days : Nat) :
    ∀ ents e, e ∈ (sweep env now days ents).1 → ∃ n, e = Ev.removeFile n := by
  intro ents
  induction ents with
  | nil => intro e h; simp [sweep] at h
  | cons a rest ih =>
    intro e h
    simp only [sweep] at h
    split at h
    · exact ih e (by simpa [keepCons] using h)
    · split at h
      · simp at h
      · split at h
        · split at h
          · split at h
            · exact ih e (by simpa [keepCons] using h)
            · rcases List.mem_cons.mp h with h1 | h1
              · exact ⟨a.name, h1⟩
              · exact ih e h1
          · exact ih e (by simpa [keepCons] using h)
        · exact ih e (by simpa [keepCons] using h)

theorem sweep_ok_not_removed (env : BackupEnv) (now : Int) (days : Nat) :
    ∀ ents ents', (sweep env now days ents).2 = Except.ok ents' →
      ∀ e ∈ ents', removedBySweep env now days e = false := by
  intro ents
  induction ents with
  | nil =>
    intro ents' h e he
    simp only [sweep] at h
    cases h
    simp at he
  | cons a rest ih =>
    intro ents' h e he
    simp only [sweep] at h
    split at h
    next hc =>
      rcases hr : (sweep env now days rest).2 with m | l
      · rw [keepCons, hr] at h; simp [Except.map] at h
      · rw [keepCons, hr] at h
        simp only [Except.map] at h
        cases h
        rcases List.mem_cons.mp he with h1 | h1
        · subst h1; simp [removedBySweep, hc]
        · exact ih l hr e h1
    next hc =>
      split at h
      · simp at h
      next hc2 =>
        split at h
        next y mo d hp =>
          split at h
          next hold =>
            split at h
            next hd =>
              rcases hr : (sweep env now days rest).2 with m | l
              · rw [keepCons, hr] at h; simp [Except.map] at h
              · rw [keepCons, hr] at h
                simp only [Except.map] at h
                cases h
                rcases List.mem_cons.mp he with h1 | h1
                · subst h1; simp [removedBySweep, hd]
                · exact ih l hr e h1
            next hd => exact ih ents' h e he
          next hold =>
            rcases hr : (sweep env now days rest).2 with m | l
            · rw [keepCons, hr] at h; simp [Except.map] at h
            · rw [keepCons, hr] at h
              simp only [Except.map] at h
              cases h
              rcases List.mem_cons.mp he with h1 | h1
              · subst h1; simp [removedBySweep, hp, hold]
              · exact ih l hr e h1
        next hp =>
          rcases hr : (sweep env now days rest).2 with m | l
          · rw [keepCons, hr] at h; simp [Except.map] at h
          · rw [keepCons, hr] at h
            simp only [Except.map] at h
            cases h
            rcases List.mem_cons.mp he with h1 | h1
            · subst h1; simp [removedBySweep, hp]
            · exact ih l hr e h1

/-- When every .log entry name is at least ten bytes long (so the slice
cannot panic), the sweep removes exactly the entries satisfying
removedBySweep and keeps the others, in order. -/
theorem sweep_ok_filter (env : BackupEnv) (now : Int) (days : Nat) :
    ∀ ents, (∀ e ∈ ents, endsLog e.name = true → 10 ≤ e.name.length) →
      sweep env now days ents =
        ((ents.filter (removedBySweep env now days)).map fun e => Ev.removeFile e.name,
          Except.ok (ents.filter fun e => !removedBySweep env now days e)) := by
  intro ents
  induction ents with
  | nil => intro _; simp [sweep]
  | cons a rest ih =>
    intro h
    have hrest : ∀ e ∈ rest, endsLog e.name = true → 10 ≤ e.name.length :=
      fun e he => h e (List.mem_cons_of_mem _ he)
    have ha := h a (List.mem_cons_self a rest)
    cases hb : endsLog a.name with
    | false =>
      have hrem : removedBySweep env now days a = false := by
        simp [removedBySweep, hb]
      simp [sweep, hb, keepCons, ih hrest, Except.map, List.filter_cons, hrem]
    | true =>
      have h10 : ¬ a.name.length < 10 := by
        have := ha hb; omega
      cases hp : parseDate (List.take 10 a.name) with
      | none =>
        have hrem : removedBySweep env now days a = false := by
          simp [removedBySweep, hp]
        simp [sweep, hb, h10, hp, keepCons, ih hrest, Except.map, List.filter_cons, hrem]
      | some t =>
        obtain ⟨y, mo, d⟩ := t
        by_cases hold : daysFromCivil y mo d * 86400 < now - (days : Int) * 86400
        · cases hd : env.deleteFails a.name with
          | true =>
            have hrem : removedBySweep env now days a = false := by
              simp [removedBySweep, hd]
            simp [sweep, hb, h10, hp, hold, hd, keepCons, ih hrest, Except.map,
              List.filter_cons, hrem]
          | false =>
            have hrem : removedBySweep env now days a = true := by
              simp [removedBySweep, hb, hp, hold, hd]
            simp [sweep, hb, h10, hp, hold, hd, ih hrest, List.filter_cons, hrem]
        · have hrem : removedBySweep env now days a = false := by
            simp [removedBySweep, hp, hold]
          simp [sweep, hb, h10, hp, hold, keepCons, ih hrest, Except.map,
            List.filter_cons, hrem]

/-! ## Lemmas about appending and file names -/

theorem appendEntry_name_mem (fn data : List Nat) :
    ∀ ents e, e ∈ appendEntry fn data ents →
      e.name = fn ∨ ∃ x ∈ ents, e.name = x.name := by
  intro ents
  induction ents with
  | nil =>
    intro e he
    simp only [appendEntry, List.mem_singleton] at he
    subst he; left; rfl
  | cons a rest ih =>
    intro e he
    simp only [appendEntry] at he
    split at he
    next hc =>
      rcases List.mem_cons.mp he with h1 | h1
      · subst h1; left; exact hc
      · right; exact ⟨e, List.mem_cons_of_mem _ h1, rfl⟩
    next hc =>
      rcases List.mem_cons.mp he with h1 | h1
      · right; exact ⟨a, List.mem_cons_self a rest, by rw [h1]⟩
      · rcases ih e h1 with h2 | ⟨x, hx, h3⟩
        · left; exact h2
        · right; exact ⟨x, List.mem_cons_of_mem _ hx, h3⟩

theorem padDigits_length (w n : Nat) : w ≤ (padDigits w n).length := by
  simp only [padDigits, List.length_append, List.length_replicate]
  omega

theorem fmtYear_length (y : Int) : 4 ≤ (fmtYear y).length := by
  simp only [fmtYear]
  split
  · exact padDigits_length 4 _
  · simp only [List.length_cons]
    have := padDigits_length 3 (-y).toNat
    omega

/-- The backup file name is always at least ten bytes, so the freshly
written file can never make the sweep panic. -/
theorem dateFileName_length (now : Int) : 10 ≤ (dateFileName now).length := by
  rcases hc : civilFromDays (Int.fdiv now 86400) with ⟨y, m, d⟩
  have h4 := fmtYear_length y
  have h2 := padDigits_length 2 m
  have h2' := padDigits_length 2 d
  simp only [dateFileName, currentDateBytes, hc, strBytes, List.length_append,
    List.length_cons, List.length_map]
  omega

/-! ## Lemmas about event kinds -/

theorem isFsEv_not_send (e : Ev) : e.isFsEv = true → e.isSend = false := by
  cases e <;> simp [Ev.isFsEv, Ev.isSend]

theorem isFsEv_stdout (e : Ev) : e.isFsEv = true → e.stdoutBytes = [] := by
  cases e <;> simp [Ev.isFsEv, Ev.stdoutBytes]

theorem sendEvs_isSend (targets : List SockAddr) (chunk : List Nat) :
    ∀ e ∈ sendEvs targets chunk, e.isSend = true := by
  intro e he
  simp only [sendEvs, List.mem_map] at he
  obtain ⟨it, _, rfl⟩ := he
  split <;> rfl

theorem sendEvs_stdout (targets : List SockAddr) (chunk : List Nat) :
    ∀ e ∈ sendEvs targets chunk, e.stdoutBytes = [] := by
  intro e he
  simp only [sendEvs, List.mem_map] at he
  obtain ⟨it, _, rfl⟩ := he
  split <;> rfl

theorem sendEvs_not_fs (targets : List SockAddr) (chunk : List Nat) :
    ∀ e ∈ sendEvs targets chunk, e.isFsEv = false := by
  intro e he
  simp only [sendEvs, List.mem_map] at he
  obtain ⟨it, _, rfl⟩ := he
  split <;> rfl

/-! ## Lemmas about backup_data -/

theorem backup_data_evs_fs (env : BackupEnv) (now : Int) (data : List Nat)
    (itv : Option Nat) (fs : BackupFs) :
    ∀ e ∈ (backup_data env now data itv fs).1, e.isFsEv = true := by
  intro e he
  cases itv with
  | none =>
    simp only [backup_data, List.mem_cons, List.not_mem_nil, or_false] at he
    rcases he with h | h
    · subst h; rfl
    · subst h; rfl
  | some days =>
    simp only [backup_data] at he
    rcases List.mem_append.mp he with h | h
    · simp only [List.mem_cons, List.not_mem_nil, or_false] at h
      rcases h with h | h
      · subst h; rfl
      · subst h; rfl
    · obtain ⟨n, rfl⟩ := sweep_evs_removeFile env now days _ e h
      rfl

theorem backup_data_evs_head (env : BackupEnv) (now : Int) (data : List Nat)
    (itv : Option Nat) (fs : BackupFs) :
    ∃ tl, (backup_data env now data itv fs).1 =
      Ev.createDir :: Ev.appendFile (dateFileName now) data :: tl := by
  cases itv with
  | none => exact ⟨[], rfl⟩
  | some days =>
    exact ⟨(sweep env now days (appendEntry (dateFileName now) data fs.entries)).1, rfl⟩

/-! ## Lemmas about processChunk -/

theorem processChunk_error_no_send (env : BackupEnv) (tee : Bool)
    (itv : Option Nat) (targets : List SockAddr) (now : Int) (chunk : List Nat)
    (fs : BackupFs) (m : String)
    (h : (processChunk env tee itv targets now chunk fs).2 = Except.error m) :
    ∀ e ∈ (processChunk env tee itv targets now chunk fs).1, e.isSend = false := by
  intro e he
  simp only [processChunk] at h he
  split at h
  next m' hb =>
    rw [hb] at he
    simp only at he
    by_cases hs : itv.isSome
    · rw [if_pos hs] at he
      exact isFsEv_not_send e (backup_data_evs_fs env now chunk itv fs e he)
    · rw [if_neg hs] at he
      simp at he
  next => exact absurd h (by simp)

theorem processChunk_ok_shape (env : BackupEnv) (tee : Bool)
    (itv : Option Nat) (targets : List SockAddr) (now : Int) (chunk : List Nat)
    (fs fs1 : BackupFs)
    (h : (processChunk env tee itv targets now chunk fs).2 = Except.ok fs1) :
    (processChunk env tee itv targets now chunk fs).1 =
      (if itv.isSome then backup_data env now chunk itv fs
       else ([], Except.ok fs)).1 ++ sendEvs targets chunk ++ teeEvs tee chunk := by
  simp only [processChunk] at h ⊢
  split at h
  next m hb => exact absurd h (by simp)
  next fs2 hb => rfl

theorem processChunk_filter_send (env : BackupEnv) (tee : Bool)
    (itv : Option Nat) (targets : List SockAddr) (now : Int) (chunk : List Nat)
    (fs fs1 : BackupFs)
    (h : (processChunk env tee itv targets now chunk fs).2 = Except.ok fs1) :
    (processChunk env tee itv targets now chunk fs).1.filter Ev.isSend =
      sendEvs targets chunk := by
  rw [processChunk_ok_shape env tee itv targets now chunk fs fs1 h]
  rw [List.filter_append, List.filter_append]
  have h1 : ((if itv.isSome then backup_data env now chunk itv fs
      else ([], Except.ok fs)).1.filter Ev.isSend) = [] := by
    rw [List.filter_eq_nil_iff]
    intro a ha
    by_cases hs : itv.isSome
    · rw [if_pos hs] at ha
      simp [isFsEv_not_send a (backup_data_evs_fs env now chunk itv fs a ha)]
    · rw [if_neg hs] at ha
      simp at ha
  have h2 : (sendEvs targets chunk).filter Ev.isSend = sendEvs targets chunk :=
    List.filter_eq_self.mpr (by intro a ha; simp [sendEvs_isSend targets chunk a ha])
  have h3 : (teeEvs tee chunk).filter Ev.isSend = [] := by
    cases tee <;> simp [teeEvs, Ev.isSend]
  rw [h1, h2, h3, List.nil_append, List.append_nil]

theorem processChunk_stdout (env : BackupEnv)
    (itv : Option Nat) (targets : List SockAddr) (now : Int) (chunk : List Nat)
    (fs fs1 : BackupFs)
    (h : (processChunk env true itv targets now chunk fs).2 = Except.ok fs1) :
    (processChunk env true itv targets now chunk fs).1.flatMap Ev.stdoutBytes = chunk := by
  rw [processChunk_ok_shape env true itv targets now chunk fs fs1 h]
  rw [List.flatMap_append, List.flatMap_append]
  have h1 : ((if itv.isSome then backup_data env now chunk itv fs
      else ([], Except.ok fs)).1.flatMap Ev.stdoutBytes) = [] := by
    rw [List.flatMap_eq_nil_iff]
    intro a ha
    by_cases hs : itv.isSome
    · rw [if_pos hs] at ha
      exact isFsEv_stdout a (backup_data_evs_fs env now chunk itv fs a ha)
    · rw [if_neg hs] at ha
      simp at ha
  have h2 : (sendEvs targets chunk).flatMap Ev.stdoutBytes = [] := by
    rw [List.flatMap_eq_nil_iff]
    exact sendEvs_stdout targets chunk
  have h3 : (teeEvs true chunk).flatMap Ev.stdoutBytes = chunk := by
    simp [teeEvs, Ev.stdoutBytes]
  rw [h1, h2, h3, List.nil_append, List.nil_append]

theorem processChunk_none (env : BackupEnv) (tee : Bool)
    (targets : List SockAddr) (now : Int) (chunk : List Nat) (fs : BackupFs) :
    processChunk env tee none targets now chunk fs =
      (sendEvs targets chunk ++ teeEvs tee chunk, Except.ok fs) := by
  simp [processChunk]

/-! ## Lemmas about the dispatcher loop -/

theorem forwardedChunks_mem :
    ∀ reads ch, ch ∈ forwardedChunks reads → ReadResult.ok ch ∈ reads ∧ ch ≠ [] := by
  intro reads
  induction reads with
  | nil => intro ch h; simp [forwardedChunks] at h
  | cons r rest ih =>
    intro ch h
    cases r with
    | err => simp [forwardedChunks] at h
    | ok bytes =>
      cases bytes with
      | nil => simp [forwardedChunks] at h
      | cons b bs =>
        simp only [forwardedChunks] at h
        cases hc : classifyChunk (b :: bs) with
        | invalidUtf8 => rw [hc] at h; simp at h
        | skip =>
          rw [hc] at h
          obtain ⟨h1, h2⟩ := ih ch h
          exact ⟨List.mem_cons_of_mem _ h1, h2⟩
        | forward =>
          rw [hc] at h
          rcases List.mem_cons.mp h with h1 | h1
          · subst h1; exact ⟨List.mem_cons_self _ _, by simp⟩
          · obtain ⟨h2, h3⟩ := ih ch h1
            exact ⟨List.mem_cons_of_mem _ h2, h3⟩

theorem streamLoop_cons_invalid (env : BackupEnv) (tee : Bool) (itv : Option Nat)
    (targets : List SockAddr) (now : Int) (b : Nat) (bs : List Nat)
    (rest : List ReadResult) (fs : BackupFs)
    (hc : classifyChunk (b :: bs) = ChunkAction.invalidUtf8) :
    streamLoop env tee itv targets now (ReadResult.ok (b :: bs) :: rest) fs =
      ([Ev.readEv (ReadResult.ok (b :: bs))],
        Except.error "stream did not contain valid utf-8") := by
  simp only [streamLoop]
  rw [hc]

theorem streamLoop_cons_skip (env : BackupEnv) (tee : Bool) (itv : Option Nat)
    (targets : List SockAddr) (now : Int) (b : Nat) (bs : List Nat)
    (rest : List ReadResult) (fs : BackupFs)
    (hc : classifyChunk (b :: bs) = ChunkAction.skip) :
    streamLoop env tee itv targets now (ReadResult.ok (b :: bs) :: rest) fs =
      (Ev.readEv (ReadResult.ok (b :: bs)) ::
          (streamLoop env tee itv targets now rest fs).1,
        (streamLoop env tee itv targets now rest fs).2) := by
  simp only [streamLoop]
  rw [hc]

theorem streamLoop_cons_forward_err (env : BackupEnv) (tee : Bool) (itv : Option Nat)
    (targets : List SockAddr) (now : Int) (b : Nat) (bs : List Nat)
    (rest : List ReadResult) (fs : BackupFs) (m : String)
    (hc : classifyChunk (b :: bs) = ChunkAction.forward)
    (hp : (processChunk env tee itv targets now (b :: bs) fs).2 = Except.error m) :
    streamLoop env tee itv targets now (ReadResult.ok (b :: bs) :: rest) fs =
      (Ev.readEv (ReadResult.ok (b :: bs)) ::
          (processChunk env tee itv targets now (b :: bs) fs).1,
        Except.error m) := by
  simp only [streamLoop]
  rw [hc, hp]

theorem streamLoop_cons_forward_ok (env : BackupEnv) (tee : Bool) (itv : Option Nat)
    (targets : List SockAddr) (now : Int) (b : Nat) (bs : List Nat)
    (rest : List ReadResult) (fs fs1 : BackupFs)
    (hc : classifyChunk (b :: bs) = ChunkAction.forward)
    (hp : (processChunk env tee itv targets now (b :: bs) fs).2 = Except.ok fs1) :
    streamLoop env tee itv targets now (ReadResult.ok (b :: bs) :: rest) fs =
      (Ev.readEv (ReadResult.ok (b :: bs)) ::
          ((processChunk env tee itv targets now (b :: bs) fs).1 ++
            (streamLoop env tee itv targets now rest fs1).1),
        (streamLoop env tee itv targets now rest fs1).2) := by
  simp only [streamLoop]
  rw [hc, hp]

theorem forwardedChunks_cons_skip (b : Nat) (bs : List Nat) (rest : List ReadResult)
    (hc : classifyChunk (b :: bs) = ChunkAction.skip) :
    forwardedChunks (ReadResult.ok (b :: bs) :: rest) = forwardedChunks rest := by
  simp only [forwardedChunks]
  rw [hc]

theorem forwardedChunks_cons_forward (b : Nat) (bs : List Nat) (rest : List ReadResult)
    (hc : classifyChunk (b :: bs) = ChunkAction.forward) :
    forwardedChunks (ReadResult.ok (b :: bs) :: rest) =
      (b :: bs) :: forwardedChunks rest := by
  simp only [forwardedChunks]
  rw [hc]

theorem streamLoop_filter_send (env : BackupEnv) (tee : Bool) (itv : Option Nat)
    (targets : List SockAddr) (now : Int) :
    ∀ reads fs fs', (streamLoop env tee itv targets now reads fs).2 = Except.ok fs' →
      (streamLoop env tee itv targets now reads fs).1.filter Ev.isSend =
        (forwardedChunks reads).flatMap (sendEvs targets) := by
  intro reads
  induction reads with
  | nil => intro fs fs' _; simp [streamLoop, forwardedChunks]
  | cons r rest ih =>
    intro fs fs' h
    cases r with
    | err => simp [streamLoop, forwardedChunks, Ev.isSend]
    | ok bytes =>
      cases bytes with
      | nil => simp [streamLoop, forwardedChunks, Ev.isSend]
      | cons b bs =>
        cases hc : classifyChunk (b :: bs) with
        | invalidUtf8 =>
          rw [streamLoop_cons_invalid env tee itv targets now b bs rest fs hc] at h
          simp at h
        | skip =>
          rw [streamLoop_cons_skip env tee itv targets now b bs rest fs hc] at h ⊢
          rw [forwardedChunks_cons_skip b bs rest hc]
          rw [List.filter_cons_of_neg (by simp [Ev.isSend])]
          exact ih fs fs' h
        | forward =>
          cases hp : (processChunk env tee itv targets now (b :: bs) fs).2 with
          | error m =>
            rw [streamLoop_cons_forward_err env tee itv targets now b bs rest fs m hc hp] at h
            simp at h
          | ok fs1 =>
            rw [streamLoop_cons_forward_ok env tee itv targets now b bs rest fs fs1 hc hp] at h ⊢
            rw [forwardedChunks_cons_forward b bs rest hc]
            rw [List.filter_cons_of_neg (by simp [Ev.isSend])]
            rw [List.filter_append]
            rw [processChunk_filter_send env tee itv targets now (b :: bs) fs fs1 hp]
            rw [ih fs1 fs' h, List.flatMap_cons]

theorem streamLoop_stdout (env : BackupEnv) (itv : Option Nat)
    (targets : List SockAddr) (now : Int) :
    ∀ reads fs fs', (streamLoop env true itv targets now reads fs).2 = Except.ok fs' →
      (streamLoop env true itv targets now reads fs).1.flatMap Ev.stdoutBytes =
        (forwardedChunks reads).flatten := by
  intro reads
  induction reads with
  | nil => intro fs fs' _; simp [streamLoop, forwardedChunks]
  | cons r rest ih =>
    intro fs fs' h
    cases r with
    | err => simp [streamLoop, forwardedChunks, Ev.stdoutBytes]
    | ok bytes =>
      cases bytes with
      | nil => simp [streamLoop, forwardedChunks, Ev.stdoutBytes]
      | cons b bs =>
        cases hc : classifyChunk (b :: bs) with
        | invalidUtf8 =>
          rw [streamLoop_cons_invalid env true itv targets now b bs rest fs hc] at h
          simp at h
        | skip =>
          rw [streamLoop_cons_skip env true itv targets now b bs rest fs hc] at h ⊢
          rw [forwardedChunks_cons_skip b bs rest hc]
          rw [List.flatMap_cons]
          rw [ih fs fs' h]
          rfl
        | forward =>
          cases hp : (processChunk env true itv targets now (b :: bs) fs).2 with
          | error m =>
            rw [streamLoop_cons_forward_err env true itv targets now b bs rest fs m hc hp] at h
            simp at h
          | ok fs1 =>
            rw [streamLoop_cons_forward_ok env true itv targets now b bs rest fs fs1 hc hp] at h ⊢
            rw [forwardedChunks_cons_forward b bs rest hc]
            rw [List.flatMap_cons, List.flatMap_append]
            rw [processChunk_stdout env itv targets now (b :: bs) fs fs1 hp]
            rw [ih fs1 fs' h, List.flatten_cons]
            rfl

theorem streamLoop_none_fs (env : BackupEnv) (tee : Bool)
    (targets : List SockAddr) (now : Int) :
    ∀ reads fs,
      (streamLoop env tee none targets now reads fs).1.filter Ev.isFsEv = [] ∧
      (∀ fs', (streamLoop env tee none targets now reads fs).2 = Except.ok fs' →
        fs' = fs) := by
  intro reads
  induction reads with
  | nil =>
    intro fs
    refine ⟨by simp [streamLoop], ?_⟩
    intro fs' h
    exact (Except.ok.inj h).symm
  | cons r rest ih =>
    intro fs
    cases r with
    | err =>
      refine ⟨by simp [streamLoop, Ev.isFsEv], ?_⟩
      intro fs' h
      exact (Except.ok.inj h).symm
    | ok bytes =>
      cases bytes with
      | nil =>
        refine ⟨by simp [streamLoop, Ev.isFsEv], ?_⟩
        intro fs' h
        exact (Except.ok.inj h).symm
      | cons b bs =>
        cases hc : classifyChunk (b :: bs) with
        | invalidUtf8 =>
          rw [streamLoop_cons_invalid env tee none targets now b bs rest fs hc]
          refine ⟨by simp [Ev.isFsEv], ?_⟩
          intro fs' h
          simp at h
        | skip =>
          rw [streamLoop_cons_skip env tee none targets now b bs rest fs hc]
          constructor
          · rw [List.filter_cons_of_neg (by simp [Ev.isFsEv])]
            exact (ih fs).1
          · intro fs' h
            exact (ih fs).2 fs' h
        | forward =>
          have hpc := processChunk_none env tee targets now (b :: bs) fs
          have hp2 : (processChunk env tee none targets now (b :: bs) fs).2 =
              Except.ok fs := by rw [hpc]
          rw [streamLoop_cons_forward_ok env tee none targets now b bs rest fs fs hc hp2]
          constructor
          · rw [List.filter_cons_of_neg (by simp [Ev.isFsEv])]
            rw [List.filter_append]
            have h1 : (processChunk env tee none targets now (b :: bs) fs).1.filter
                Ev.isFsEv = [] := by
              rw [hpc]
              rw [List.filter_append]
              have hsend : (sendEvs targets (b :: bs)).filter Ev.isFsEv = [] := by
                rw [List.filter_eq_nil_iff]
                intro a ha
                simp [sendEvs_not_fs targets (b :: bs) a ha]
              have htee : (teeEvs tee (b :: bs)).filter Ev.isFsEv = [] := by
                cases tee <;> simp [teeEvs, Ev.isFsEv]
              rw [hsend, htee, List.nil_append]
            rw [h1, List.nil_append]
            exact (ih fs).1
          · intro fs' h
            exact (ih fs).2 fs' h

/-! ## Lemmas about target setup -/

theorem tsi_ok_resolve (p : Platform) (net : NetEnv) (s : String) (a : SockAddr)
    (h : (target_socket_interface p net s).2 = Except.ok a) :
    net.resolve s = some a := by
  simp only [target_socket_interface] at h
  split at h
  next hr => simp at h
  next t hr =>
    split at h
    · simp at h
    · split at h
      · split at h
        · split at h
          · simp at h
          · rw [hr]; exact congrArg some (Except.ok.inj h)
        · split at h
          · simp at h
          · split at h
            · simp at h
            · split at h
              · simp at h
              · rw [hr]; exact congrArg some (Except.ok.inj h)
      · rw [hr]; exact congrArg some (Except.ok.inj h)

theorem setupTargets_cons_err (p : Platform) (net : NetEnv) (path s : String)
    (rest : List String) (m : String)
    (h : (target_socket_interface p net s).2 = Except.error m) :
    setupTargets p net path (s :: rest) =
      ((target_socket_interface p net s).1.map (Ev.sockOp s), Except.error m) := by
  simp only [setupTargets]
  rw [h]

theorem setupTargets_cons_ok (p : Platform) (net : NetEnv) (path s : String)
    (rest : List String) (a : SockAddr)
    (h : (target_socket_interface p net s).2 = Except.ok a) :
    setupTargets p net path (s :: rest) =
      ((target_socket_interface p net s).1.map (Ev.sockOp s) ++ [Ev.logLine path s] ++
          (setupTargets p net path rest).1,
        (setupTargets p net path rest).2.map fun ts => a :: ts) := by
  simp only [setupTargets]
  rw [h]

theorem setupTargets_evs_setup (p : Platform) (net : NetEnv) (path : String) :
    ∀ addrs, ∀ e ∈ (setupTargets p net path addrs).1, e.isSetup = true := by
  intro addrs
  induction addrs with
  | nil => intro e he; simp [setupTargets] at he
  | cons s rest ih =>
    intro e he
    cases ht : (target_socket_interface p net s).2 with
    | error m =>
      rw [setupTargets_cons_err p net path s rest m ht] at he
      simp only [List.mem_map] at he
      obtain ⟨op, _, rfl⟩ := he
      rfl
    | ok a =>
      rw [setupTargets_cons_ok p net path s rest a ht] at he
      rcases List.mem_append.mp he with h1 | h1
      · rcases List.mem_append.mp h1 with h2 | h2
        · simp only [List.mem_map] at h2
          obtain ⟨op, _, rfl⟩ := h2
          rfl
        · rcases List.mem_singleton.mp h2 with rfl
          rfl
      · exact ih e h1

theorem setupTargets_ok_resolve (p : Platform) (net : NetEnv) (path : String) :
    ∀ addrs ts, (setupTargets p net path addrs).2 = Except.ok ts →
      ts.length = addrs.length ∧
      ∀ i (h1 : i < addrs.length) (h2 : i < ts.length),
        net.resolve (addrs.get ⟨i, h1⟩) = some (ts.get ⟨i, h2⟩) := by
  intro addrs
  induction addrs with
  | nil =>
    intro ts h
    simp only [setupTargets] at h
    have := Except.ok.inj h
    subst this
    exact ⟨rfl, fun i h1 _ => absurd h1 (Nat.not_lt_zero i)⟩
  | cons s rest ih =>
    intro ts h
    cases ht : (target_socket_interface p net s).2 with
    | error m =>
      rw [setupTargets_cons_err p net path s rest m ht] at h
      simp at h
    | ok a =>
      rw [setupTargets_cons_ok p net path s rest a ht] at h
      cases hs : (setupTargets p net path rest).2 with
      | error m => rw [hs] at h; simp [Except.map] at h
      | ok l =>
        rw [hs] at h
        simp only [Except.map] at h
        have hts := Except.ok.inj h
        subst hts
        obtain ⟨hlen, hres⟩ := ih l hs
        constructor
        · simp [hlen]
        · intro i h1 h2
          cases i with
          | zero =>
            simpa using tsi_ok_resolve p net s a ht
          | succ j =>
            simpa using hres j (by simpa using h1) (by simpa using h2)

theorem setupTargets_ok_stdout (p : Platform) (net : NetEnv) (path : String) :
    ∀ addrs ts, (setupTargets p net path addrs).2 = Except.ok ts →
      (setupTargets p net path addrs).1.flatMap Ev.stdoutBytes =
        (addrs.map (logLineBytes path)).flatten := by
  intro addrs
  induction addrs with
  | nil => intro ts _; simp [setupTargets]
  | cons s rest ih =>
    intro ts h
    cases ht : (target_socket_interface p net s).2 with
    | error m =>
      rw [setupTargets_cons_err p net path s rest m ht] at h
      simp at h
    | ok a =>
      rw [setupTargets_cons_ok p net path s rest a ht] at h ⊢
      cases hs : (setupTargets p net path rest).2 with
      | error m => rw [hs] at h; simp [Except.map] at h
      | ok l =>
        rw [List.flatMap_append, List.flatMap_append]
        have h1 : ((target_socket_interface p net s).1.map (Ev.sockOp s)).flatMap
            Ev.stdoutBytes = [] := by
          rw [List.flatMap_eq_nil_iff]
          intro e he
          simp only [List.mem_map] at he
          obtain ⟨op, _, rfl⟩ := he
          rfl
        rw [h1, List.nil_append, ih l hs]
        simp [Ev.stdoutBytes]

/-! ## Further equation lemmas -/

theorem processChunk_some_err (env : BackupEnv) (tee : Bool) (d : Nat)
    (targets : List SockAddr) (now : Int) (chunk : List Nat) (fs : BackupFs)
    (m : String)
    (hb : (backup_data env now chunk (some d) fs).2 = Except.error m) :
    processChunk env tee (some d) targets now chunk fs =
      ((backup_data env now chunk (some d) fs).1, Except.error m) := by
  simp only [processChunk, Option.isSome_some, if_true]
  rw [hb]

theorem processChunk_some_ok (env : BackupEnv) (tee : Bool) (d : Nat)
    (targets : List SockAddr) (now : Int) (chunk : List Nat) (fs fs1 : BackupFs)
    (hb : (backup_data env now chunk (some d) fs).2 = Except.ok fs1) :
    processChunk env tee (some d) targets now chunk fs =
      ((backup_data env now chunk (some d) fs).1 ++ sendEvs targets chunk ++
          teeEvs tee chunk,
        Except.ok fs1) := by
  simp only [processChunk, Option.isSome_some, if_true]
  rw [hb]

theorem client_err_eq (p : Platform) (net : NetEnv) (env : BackupEnv)
    (path : String) (addrs : List String) (tee : Bool) (itv : Option Nat)
    (reads : List ReadResult) (now : Int) (fs : BackupFs) (m : String)
    (hsetup : (setupTargets p net path addrs).2 = Except.error m) :
    client_socket_stream p net env path addrs tee itv reads now fs =
      ((setupTargets p net path addrs).1, Except.error m) := by
  simp only [client_socket_stream]
  rw [hsetup]

theorem client_ok_eq (p : Platform) (net : NetEnv) (env : BackupEnv)
    (path : String) (addrs : List String) (tee : Bool) (itv : Option Nat)
    (reads : List ReadResult) (now : Int) (fs : BackupFs) (ts : List SockAddr)
    (hsetup : (setupTargets p net path addrs).2 = Except.ok ts) :
    client_socket_stream p net env path addrs tee itv reads now fs =
      ((setupTargets p net path addrs).1 ++
          Ev.openInput :: (streamLoop env tee itv ts now reads fs).1,
        (streamLoop env tee itv ts now reads fs).2) := by
  simp only [client_socket_stream]
  rw [hsetup]

theorem removedBySweep_iff (env : BackupEnv) (now : Int) (d : Nat) (e : DirEntry) :
    removedBySweep env now d e = true ↔
      (endsLog e.name = true ∧ env.deleteFails e.name = false ∧
        ∃ y mo dd, parseDate (List.take 10 e.name) = some (y, mo, dd) ∧
          daysFromCivil y mo dd * 86400 < now - (d : Int) * 86400) := by
  cases hp : parseDate (List.take 10 e.name) with
  | none =>
    constructor
    · intro hr
      simp [removedBySweep, hp] at hr
    · rintro ⟨_, _, y, mo, dd, hq, _⟩
      exact absurd hq (by simp)
  | some t =>
    obtain ⟨y, mo, dd⟩ := t
    simp only [removedBySweep, hp, Bool.and_eq_true, Bool.not_eq_true',
      decide_eq_true_eq]
    constructor
    · rintro ⟨⟨h1, h2⟩, h3⟩
      exact ⟨h1, h3, y, mo, dd, rfl, h2⟩
    · rintro ⟨h1, h3, y', mo', dd', hq, h2⟩
      have h4 := Option.some.inj hq
      obtain ⟨e1, e2, e3⟩ : y = y' ∧ mo = mo' ∧ dd = dd' := by
        simpa [Prod.ext_iff] using h4
      subst e1; subst e2; subst e3
      exact ⟨⟨h1, h2⟩, h3⟩

theorem classifyChunk_forward (b : Nat) (bs : List Nat)
    (h : bs = [] → b < 128 ∧ b ≠ 10) :
    classifyChunk (b :: bs) = ChunkAction.forward := by
  cases bs with
  | nil =>
    obtain ⟨h1, h2⟩ := h rfl
    simp [classifyChunk, Nat.not_le.mpr h1, h2]
  | cons b2 bs2 => rfl

/-! ## Concrete fixtures used by witnesses -/

/-- A backup environment whose deletions always succeed. -/
def benvW : BackupEnv := ⟨fun _ => false⟩

/-- An empty backup directory state. -/
def fsW : BackupFs := ⟨false, []⟩

/-- A resolved IPv4 unicast target. -/
def tgtU : SockAddr := ⟨Ip.addr false false 1, 9910⟩

/-- A resolved IPv6 multicast target. -/
def tgtM6 : SockAddr := ⟨Ip.addr true true 2, 9913⟩

/-- A network environment resolving every string to the unicast target. -/
def netW : NetEnv := ⟨fun _ => some tgtU, fun _ => false, fun _ => false, fun _ => false, none⟩

/-- A network environment resolving every string to the IPv6 multicast
target, default interface index 3. -/
def netC6 : NetEnv := ⟨fun _ => some tgtM6, fun _ => false, fun _ => false, fun _ => false, some 3⟩

/-- A network environment that fails to resolve the string "bad:1". -/
def netC8 : NetEnv :=
  ⟨fun s => if s = "bad:1" then none else some tgtU,
    fun _ => false, fun _ => false, fun _ => false, none⟩

/-! ## Claims -/

/-- Claim C1: for every chunk that passes the skip rule, the dispatcher
iterates over the targets in registration order and sends each target one
UDP datagram whose payload is exactly the chunk bytes (at most
BUFSIZE = 8096 bytes, no header or framing): targets that are not
IPv6-multicast receive it via a send with the explicit resolved destination
address, IPv6-multicast targets via a destination-less send on the
pre-connected socket.  Stated over the whole loop: the send events of a
successful session are exactly, in order, one block per forwarded chunk
containing one send per target in registration order. -/
theorem c1_fanout_per_target (env : BackupEnv) (tee : Bool) (itv : Option Nat)
    (targets : List SockAddr) (now : Int) (reads : List ReadResult) (fs fs' : BackupFs)
    (hok : (streamLoop env tee itv targets now reads fs).2 = Except.ok fs')
    (hlen : ∀ bs, ReadResult.ok bs ∈ reads → bs.length ≤ BUFSIZE) :
    (streamLoop env tee itv targets now reads fs).1.filter Ev.isSend =
      (forwardedChunks reads).flatMap (fun ch =>
        targets.enum.map fun it =>
          if it.2.ip.isV6 && it.2.ip.isMulticast then Ev.send it.1 ch
          else Ev.sendTo it.1 it.2 ch) ∧
    (∀ ch ∈ forwardedChunks reads, ch ≠ [] ∧ ch.length ≤ BUFSIZE) := by
  constructor
  · exact streamLoop_filter_send env tee itv targets now reads fs fs' hok
  · intro ch hch
    obtain ⟨hmem, hne⟩ := forwardedChunks_mem reads ch hch
    exact ⟨hne, hlen ch hmem⟩

/-- Witness for C1: a concrete session with one unicast target, one
IPv6-multicast target and one forwarded chunk. -/
theorem c1_fanout_per_target_witness :
    (streamLoop benvW false none [tgtU, tgtM6] 0 [ReadResult.ok [65, 66]] fsW).1.filter
        Ev.isSend =
      (forwardedChunks [ReadResult.ok [65, 66]]).flatMap (fun ch =>
        [tgtU, tgtM6].enum.map fun it =>
          if it.2.ip.isV6 && it.2.ip.isMulticast then Ev.send it.1 ch
          else Ev.sendTo it.1 it.2 ch) ∧
    (∀ ch ∈ forwardedChunks [ReadResult.ok [65, 66]], ch ≠ [] ∧ ch.length ≤ BUFSIZE) :=
  c1_fanout_per_target benvW false none [tgtU, tgtM6] 0 [ReadResult.ok [65, 66]] fsW fsW
    rfl
    (by intro bs hbs
        simp only [List.mem_singleton] at hbs
        have hb := ReadResult.ok.inj hbs
        subst hb
        decide)

/-- Claim C2 counterexample: the claim says every single-byte chunk other
than the newline is processed normally (sent to every target), but the
single byte 200 is not valid UTF-8, so String::from_utf8(..).unwrap()
panics: the session aborts with only the read recorded and no send. -/
theorem c2_counterexample :
    streamLoop benvW false none [tgtU] 0 [ReadResult.ok [200]] fsW =
      ([Ev.readEv (ReadResult.ok [200])],
        Except.error "stream did not contain valid utf-8") := rfl

/-- Claim C2 as amended: a chunk that is exactly the single newline byte is
never forwarded, teed or backed up (the iteration adds only the read event
and the loop continues on the same state); a single byte 128 or above makes
the from_utf8 unwrap panic, aborting the session with nothing forwarded;
every other non-empty chunk — multi-byte chunks, including those ending in
a newline, and single-byte chunks below 128 other than the newline — is
processed normally (backed up if configured, sent to every target, teed if
enabled, via processChunk). -/
theorem c2_skip_rule_amended (env : BackupEnv) (tee : Bool) (itv : Option Nat)
    (targets : List SockAddr) (now : Int) :
    (∀ rest fs, streamLoop env tee itv targets now (ReadResult.ok [10] :: rest) fs =
        (Ev.readEv (ReadResult.ok [10]) ::
            (streamLoop env tee itv targets now rest fs).1,
          (streamLoop env tee itv targets now rest fs).2)) ∧
    (∀ b rest fs, 128 ≤ b →
        streamLoop env tee itv targets now (ReadResult.ok [b] :: rest) fs =
          ([Ev.readEv (ReadResult.ok [b])],
            Except.error "stream did not contain valid utf-8")) ∧
    (∀ b bs rest fs, (bs = [] → b < 128 ∧ b ≠ 10) →
        (∀ m, (processChunk env tee itv targets now (b :: bs) fs).2 = Except.error m →
          streamLoop env tee itv targets now (ReadResult.ok (b :: bs) :: rest) fs =
            (Ev.readEv (ReadResult.ok (b :: bs)) ::
                (processChunk env tee itv targets now (b :: bs) fs).1,
              Except.error m)) ∧
        (∀ fs1, (processChunk env tee itv targets now (b :: bs) fs).2 = Except.ok fs1 →
          streamLoop env tee itv targets now (ReadResult.ok (b :: bs) :: rest) fs =
            (Ev.readEv (ReadResult.ok (b :: bs)) ::
                ((processChunk env tee itv targets now (b :: bs) fs).1 ++
                  (streamLoop env tee itv targets now rest fs1).1),
              (streamLoop env tee itv targets now rest fs1).2))) := by
  refine ⟨?_, ?_, ?_⟩
  · intro rest fs
    exact streamLoop_cons_skip env tee itv targets now 10 [] rest fs (by decide)
  · intro b rest fs hb
    apply streamLoop_cons_invalid
    simp only [classifyChunk]
    rw [if_pos hb]
  · intro b bs rest fs h
    have hc := classifyChunk_forward b bs h
    exact ⟨fun m hm =>
        streamLoop_cons_forward_err env tee itv targets now b bs rest fs m hc hm,
      fun fs1 h1 =>
        streamLoop_cons_forward_ok env tee itv targets now b bs rest fs fs1 hc h1⟩

/-- Witness for the amended C2: the lone newline is skipped, byte 200
panics, byte 65 is processed normally. -/
theorem c2_skip_rule_amended_witness :
    (streamLoop benvW false none [tgtU] 0 [ReadResult.ok [10]] fsW =
      (Ev.readEv (ReadResult.ok [10]) :: (streamLoop benvW false none [tgtU] 0 [] fsW).1,
        (streamLoop benvW false none [tgtU] 0 [] fsW).2)) ∧
    (streamLoop benvW false none [tgtU] 0 [ReadResult.ok [200]] fsW =
      ([Ev.readEv (ReadResult.ok [200])],
        Except.error "stream did not contain valid utf-8")) ∧
    (streamLoop benvW false none [tgtU] 0 [ReadResult.ok [65]] fsW =
      (Ev.readEv (ReadResult.ok [65]) ::
          ((processChunk benvW false none [tgtU] 0 [65] fsW).1 ++
            (streamLoop benvW false none [tgtU] 0 [] fsW).1),
        (streamLoop benvW false none [tgtU] 0 [] fsW).2)) := by
  obtain ⟨hA, hB, hC⟩ := c2_skip_rule_amended benvW false none [tgtU] 0
  exact ⟨hA [] fsW, hB 200 [] fsW (by decide),
    (hC 65 [] [] fsW (fun _ => ⟨by decide, by decide⟩)).2 fsW rfl⟩

/-- Claim C3: when a backup interval is configured, for every non-skipped
chunk the whole synchronous backup_data call — including the append of the
chunk to the current date file — forms a prefix of the iteration trace that
contains no network send, so persistence completes before any send of the
chunk is performed. -/
theorem c3_durability_before_delivery (env : BackupEnv) (tee : Bool) (d : Nat)
    (itv : Option Nat) (targets : List SockAddr) (now : Int) (chunk : List Nat)
    (fs : BackupFs) (h : itv = some d) :
    ∃ bevs rest,
      (processChunk env tee itv targets now chunk fs).1 = bevs ++ rest ∧
      bevs = (backup_data env now chunk (some d) fs).1 ∧
      Ev.appendFile (dateFileName now) chunk ∈ bevs ∧
      (∀ e ∈ bevs, e.isSend = false) := by
  subst h
  obtain ⟨tl, htl⟩ := backup_data_evs_head env now chunk (some d) fs
  have hmem : Ev.appendFile (dateFileName now) chunk ∈
      (backup_data env now chunk (some d) fs).1 := by
    rw [htl]
    exact List.mem_cons_of_mem _ (List.mem_cons_self _ _)
  have hnos : ∀ e ∈ (backup_data env now chunk (some d) fs).1, e.isSend = false :=
    fun e he => isFsEv_not_send e (backup_data_evs_fs env now chunk (some d) fs e he)
  cases hb : (backup_data env now chunk (some d) fs).2 with
  | error m =>
    refine ⟨(backup_data env now chunk (some d) fs).1, [], ?_, rfl, hmem, hnos⟩
    rw [processChunk_some_err env tee d targets now chunk fs m hb, List.append_nil]
  | ok fs1 =>
    refine ⟨(backup_data env now chunk (some d) fs).1,
      sendEvs targets chunk ++ teeEvs tee chunk, ?_, rfl, hmem, hnos⟩
    rw [processChunk_some_ok env tee d targets now chunk fs fs1 hb, List.append_assoc]

/-- Witness for C3 at a concrete chunk with a one-day backup interval. -/
theorem c3_durability_before_delivery_witness :
    ∃ bevs rest,
      (processChunk benvW false (some 1) [tgtU] 1700000000 [65] fsW).1 = bevs ++ rest ∧
      bevs = (backup_data benvW 1700000000 [65] (some 1) fsW).1 ∧
      Ev.appendFile (dateFileName 1700000000) [65] ∈ bevs ∧
      (∀ e ∈ bevs, e.isSend = false) :=
  c3_durability_before_delivery benvW false 1 (some 1) [tgtU] 1700000000 [65] fsW rfl

/-- Claim C4: with a retention window of D days, every backup write sweeps
the (post-append) directory listing: an entry whose name ends in ".log" and
whose first ten bytes parse as a date survives iff its midnight-UTC instant
is not strictly older than now minus D*86400 seconds, and every expired
such entry gets a removal event in the same call.  The hypotheses rule out
the slice panic (no .log name shorter than ten bytes — see C5) and deletion
failures (see C5 as well). -/
theorem c4_retention_sweep (env : BackupEnv) (now : Int) (data : List Nat) (D : Nat)
    (fs : BackupFs)
    (hlen : ∀ e ∈ fs.entries, endsLog e.name = true → 10 ≤ e.name.length)
    (hdel : ∀ n, env.deleteFails n = false) :
    ∃ evs fs2, backup_data env now data (some D) fs = (evs, Except.ok fs2) ∧
      ∀ e ∈ appendEntry (dateFileName now) data fs.entries,
        ((e ∈ fs2.entries ↔
            ¬(endsLog e.name = true ∧
              ∃ y mo dd, parseDate (List.take 10 e.name) = some (y, mo, dd) ∧
                daysFromCivil y mo dd * 86400 < now - (D : Int) * 86400)) ∧
          ((endsLog e.name = true ∧
              ∃ y mo dd, parseDate (List.take 10 e.name) = some (y, mo, dd) ∧
                daysFromCivil y mo dd * 86400 < now - (D : Int) * 86400) →
            Ev.removeFile e.name ∈ evs)) := by
  have hlen1 : ∀ e ∈ appendEntry (dateFileName now) data fs.entries,
      endsLog e.name = true → 10 ≤ e.name.length := by
    intro e he hE
    rcases appendEntry_name_mem (dateFileName now) data fs.entries e he with h1 | ⟨x, hx, h2⟩
    · rw [h1]; exact dateFileName_length now
    · rw [h2]; rw [h2] at hE; exact hlen x hx hE
  have hsw := sweep_ok_filter env now D (appendEntry (dateFileName now) data fs.entries) hlen1
  have hcond : ∀ e, removedBySweep env now D e = true ↔
      (endsLog e.name = true ∧
        ∃ y mo dd, parseDate (List.take 10 e.name) = some (y, mo, dd) ∧
          daysFromCivil y mo dd * 86400 < now - (D : Int) * 86400) := by
    intro e
    rw [removedBySweep_iff]
    constructor
    · rintro ⟨h1, _, h3⟩; exact ⟨h1, h3⟩
    · rintro ⟨h1, h3⟩; exact ⟨h1, hdel e.name, h3⟩
  refine ⟨[Ev.createDir, Ev.appendFile (dateFileName now) data] ++
      ((appendEntry (dateFileName now) data fs.entries).filter
        (removedBySweep env now D)).map (fun e => Ev.removeFile e.name),
    ⟨true, (appendEntry (dateFileName now) data fs.entries).filter
      fun e => !removedBySweep env now D e⟩, ?_, ?_⟩
  · simp only [backup_data]
    rw [hsw]
    rfl
  · intro e he
    constructor
    · show e ∈ (appendEntry (dateFileName now) data fs.entries).filter
        (fun e => !removedBySweep env now D e) ↔ _
      rw [List.mem_filter]
      constructor
      · rintro ⟨_, hr⟩
        intro hcontra
        simp only [Bool.not_eq_true'] at hr
        rw [(hcond e).mpr hcontra] at hr
        exact Bool.true_eq_false.mp hr
      · intro hn
        refine ⟨he, ?_⟩
        cases hrem : removedBySweep env now D e with
        | true => exact absurd ((hcond e).mp hrem) hn
        | false => rfl
    · intro hc
      have hrem : removedBySweep env now D e = true := (hcond e).mpr hc
      apply List.mem_append.mpr
      right
      exact List.mem_map.mpr ⟨e, List.mem_filter.mpr ⟨he, hrem⟩, rfl⟩

/-- Witness for C4: a directory holding an expired file (2020-01-01.log), a
non-log file, and the fresh write, with now in November 2023 and a
seven-day window. -/
theorem c4_retention_sweep_witness :
    ∃ evs fs2, backup_data benvW 1700000000 [65] (some 7)
        ⟨true, [⟨strBytes "2020-01-01.log", [1]⟩, ⟨strBytes "notes.txt", [2]⟩]⟩ =
        (evs, Except.ok fs2) ∧
      ∀ e ∈ appendEntry (dateFileName 1700000000) [65]
          [⟨strBytes "2020-01-01.log", [1]⟩, ⟨strBytes "notes.txt", [2]⟩],
        ((e ∈ fs2.entries ↔
            ¬(endsLog e.name = true ∧
              ∃ y mo dd, parseDate (List.take 10 e.name) = some (y, mo, dd) ∧
                daysFromCivil y mo dd * 86400 < 1700000000 - (7 : Int) * 86400)) ∧
          ((endsLog e.name = true ∧
              ∃ y mo dd, parseDate (List.take 10 e.name) = some (y, mo, dd) ∧
                daysFromCivil y mo dd * 86400 < 1700000000 - (7 : Int) * 86400) →
            Ev.removeFile e.name ∈ evs)) :=
  c4_retention_sweep benvW 1700000000 [65] 7
    ⟨true, [⟨strBytes "2020-01-01.log", [1]⟩, ⟨strBytes "notes.txt", [2]⟩]⟩
    (by decide) (fun _ => rfl)

/-- Claim C5 (code bug): the sweep is meant to silently ignore malformed
backup file names, but for a ".log" entry whose name is shorter than ten
bytes the slice filename[..10] panics (byte index out of bounds), aborting
the streaming session: here the directory entry "a.log" makes backup_data
end in the panic instead of ignoring the file. -/
theorem c5_short_name_panics :
    backup_data benvW 1700000000 [65] (some 1) ⟨true, [⟨strBytes "a.log", []⟩]⟩ =
      ([Ev.createDir, Ev.appendFile (strBytes "2023-11-14.log") [65]],
        Except.error "byte index 10 is out of bounds") := rfl

/-- Claim C6: binding an IPv6 multicast target: on linux the socket is
connected to the unspecified IPv6 address at the target port and joined
with interface index 0; on macos the queried default-interface index is
used for the join instead; on windows (the excluded platform) the socket is
connected directly to the fully resolved target address and joined with
index 0. The connect precedes the join on every platform. -/
theorem c6_ipv6_multicast_platforms (net : NetEnv) (s : String) (a : SockAddr)
    (ipid k : Nat)
    (hres : net.resolve s = some a)
    (hip : a.ip = Ip.addr true true ipid)
    (hbind : net.bindFails s = false)
    (hconn : net.connectFails s = false)
    (hjoin : net.joinFails s = false)
    (hitf : net.defaultItf = some k) :
    target_socket_interface Platform.linux net s =
      ([SockOp.bind ⟨Ip.unspec true, 0⟩,
        SockOp.connect ⟨Ip.unspec true, a.port⟩, SockOp.joinV6 a.ip 0],
        Except.ok a) ∧
    target_socket_interface Platform.windows net s =
      ([SockOp.bind ⟨Ip.unspec true, 0⟩, SockOp.connect a, SockOp.joinV6 a.ip 0],
        Except.ok a) ∧
    target_socket_interface Platform.macos net s =
      ([SockOp.bind ⟨Ip.unspec true, 0⟩,
        SockOp.connect ⟨Ip.unspec true, a.port⟩, SockOp.joinV6 a.ip k],
        Except.ok a) := by
  obtain ⟨ip, port⟩ := a
  simp only at hip
  subst hip
  refine ⟨?_, ?_, ?_⟩ <;>
    simp [target_socket_interface, hres, hbind, hconn, hjoin, hitf,
      unspecBind, Ip.isMulticast, Ip.isV6]

/-- Witness for C6 at a concrete IPv6 multicast target with default
interface index 3. -/
theorem c6_ipv6_multicast_platforms_witness :
    target_socket_interface Platform.linux netC6 "[ff02::2]:9913" =
      ([SockOp.bind ⟨Ip.unspec true, 0⟩,
        SockOp.connect ⟨Ip.unspec true, tgtM6.port⟩, SockOp.joinV6 tgtM6.ip 0],
        Except.ok tgtM6) ∧
    target_socket_interface Platform.windows netC6 "[ff02::2]:9913" =
      ([SockOp.bind ⟨Ip.unspec true, 0⟩, SockOp.connect tgtM6,
        SockOp.joinV6 tgtM6.ip 0], Except.ok tgtM6) ∧
    target_socket_interface Platform.macos netC6 "[ff02::2]:9913" =
      ([SockOp.bind ⟨Ip.unspec true, 0⟩,
        SockOp.connect ⟨Ip.unspec true, tgtM6.port⟩, SockOp.joinV6 tgtM6.ip 3],
        Except.ok tgtM6) :=
  c6_ipv6_multicast_platforms netC6 "[ff02::2]:9913" tgtM6 2 3 rfl rfl rfl rfl rfl rfl

/-- Claim C7 counterexample: standard output does not reproduce exactly the
forwarded chunks byte for byte, because client_socket_stream prints one
"logging from .. sending to .." line per target to stdout during setup.
With one target and one forwarded chunk the stdout bytes strictly extend
the chunk bytes. -/
theorem c7_counterexample :
    ¬((client_socket_stream Platform.linux netW benvW "-" ["127.0.0.1:9910"] true none
          [ReadResult.ok [65]] 0 fsW).1.flatMap Ev.stdoutBytes =
        (forwardedChunks [ReadResult.ok [65]]).flatten) := by decide

/-- Claim C7 as amended: when tee is enabled, every forwarded chunk is
written whole to standard output and flushed immediately after the sends of
that chunk, and standard output reproduces, byte for byte and in order,
exactly the sequence of forwarded chunks — prefixed by the one setup log
line printed per target during setup (a debug build would additionally
print an end-of-file notice; the model follows the release build). -/
theorem c7_tee_amended (p : Platform) (net : NetEnv) (env : BackupEnv) (path : String)
    (addrs : List String) (itv : Option Nat) (reads : List ReadResult) (now : Int)
    (fs fs' : BackupFs) (ts : List SockAddr)
    (hsetup : (setupTargets p net path addrs).2 = Except.ok ts)
    (hok : (streamLoop env true itv ts now reads fs).2 = Except.ok fs') :
    (client_socket_stream p net env path addrs true itv reads now fs).1.flatMap
        Ev.stdoutBytes =
      (addrs.map (logLineBytes path)).flatten ++ (forwardedChunks reads).flatten ∧
    (∀ chunk fs0 fs1, (processChunk env true itv ts now chunk fs0).2 = Except.ok fs1 →
      (processChunk env true itv ts now chunk fs0).1 =
        (if itv.isSome then backup_data env now chunk itv fs0
         else ([], Except.ok fs0)).1 ++ sendEvs ts chunk ++
          [Ev.teeWrite chunk, Ev.teeFlush]) := by
  constructor
  · rw [client_ok_eq p net env path addrs true itv reads now fs ts hsetup]
    rw [List.flatMap_append, List.flatMap_cons]
    rw [setupTargets_ok_stdout p net path addrs ts hsetup]
    rw [streamLoop_stdout env itv ts now reads fs fs' hok]
    rfl
  · intro chunk fs0 fs1 hpc
    exact processChunk_ok_shape env true itv ts now chunk fs0 fs1 hpc

/-- Witness for the amended C7 at a concrete one-target session. -/
theorem c7_tee_amended_witness :
    (client_socket_stream Platform.linux netW benvW "-" ["127.0.0.1:9910"] true none
        [ReadResult.ok [65]] 0 fsW).1.flatMap Ev.stdoutBytes =
      (["127.0.0.1:9910"].map (logLineBytes "-")).flatten ++
        (forwardedChunks [ReadResult.ok [65]]).flatten ∧
    (∀ chunk fs0 fs1,
      (processChunk benvW true none [tgtU] 0 chunk fs0).2 = Except.ok fs1 →
      (processChunk benvW true none [tgtU] 0 chunk fs0).1 =
        (if (none : Option Nat).isSome then backup_data benvW 0 chunk none fs0
         else ([], Except.ok fs0)).1 ++ sendEvs [tgtU] chunk ++
          [Ev.teeWrite chunk, Ev.teeFlush]) :=
  c7_tee_amended Platform.linux netW benvW "-" ["127.0.0.1:9910"] none
    [ReadResult.ok [65]] 0 fsW fsW [tgtU] rfl rfl

/-- Claim C8: target setup is all-or-nothing: if setup fails on any
requested destination, the whole session aborts with the setup events only
(no input open, no read, no send, no backup io), and when setup succeeds it
accumulates exactly one resolved target per requested string, in request
order, before the input is opened and the loop starts. -/
theorem c8_all_or_nothing (p : Platform) (net : NetEnv) (env : BackupEnv)
    (path : String) (addrs : List String) (tee : Bool) (itv : Option Nat)
    (reads : List ReadResult) (now : Int) (fs : BackupFs) :
    (∀ m, (setupTargets p net path addrs).2 = Except.error m →
      client_socket_stream p net env path addrs tee itv reads now fs =
        ((setupTargets p net path addrs).1, Except.error m) ∧
      ∀ e ∈ (client_socket_stream p net env path addrs tee itv reads now fs).1,
        e.isSetup = true) ∧
    (∀ ts, (setupTargets p net path addrs).2 = Except.ok ts →
      ts.length = addrs.length ∧
      (∀ i (h1 : i < addrs.length) (h2 : i < ts.length),
        net.resolve (addrs.get ⟨i, h1⟩) = some (ts.get ⟨i, h2⟩)) ∧
      client_socket_stream p net env path addrs tee itv reads now fs =
        ((setupTargets p net path addrs).1 ++
            Ev.openInput :: (streamLoop env tee itv ts now reads fs).1,
          (streamLoop env tee itv ts now reads fs).2)) := by
  constructor
  · intro m hm
    have hce := client_err_eq p net env path addrs tee itv reads now fs m hm
    refine ⟨hce, ?_⟩
    intro e he
    rw [hce] at he
    exact setupTargets_evs_setup p net path addrs e he
  · intro ts hts
    obtain ⟨hl, hr⟩ := setupTargets_ok_resolve p net path addrs ts hts
    exact ⟨hl, hr, client_ok_eq p net env path addrs tee itv reads now fs ts hts⟩

/-- Witness for C8: a failing second destination aborts the whole session
with only setup events; a succeeding setup accumulates the target before
the input is opened. -/
theorem c8_all_or_nothing_witness :
    (client_socket_stream Platform.linux netC8 benvW "-" ["ok:1", "bad:1"] false none
        [ReadResult.ok [65]] 0 fsW =
      ((setupTargets Platform.linux netC8 "-" ["ok:1", "bad:1"]).1,
        Except.error "parsing socket address") ∧
      ∀ e ∈ (client_socket_stream Platform.linux netC8 benvW "-" ["ok:1", "bad:1"]
          false none [ReadResult.ok [65]] 0 fsW).1, e.isSetup = true) ∧
    (([tgtU] : List SockAddr).length = (["ok:1"] : List String).length ∧
      (∀ i (h1 : i < (["ok:1"] : List String).length)
          (h2 : i < ([tgtU] : List SockAddr).length),
        netC8.resolve ((["ok:1"] : List String).get ⟨i, h1⟩) =
          some (([tgtU] : List SockAddr).get ⟨i, h2⟩)) ∧
      client_socket_stream Platform.linux netC8 benvW "-" ["ok:1"] false none
          [ReadResult.ok [65]] 0 fsW =
        ((setupTargets Platform.linux netC8 "-" ["ok:1"]).1 ++
            Ev.openInput ::
              (streamLoop benvW false none [tgtU] 0 [ReadResult.ok [65]] fsW).1,
          (streamLoop benvW false none [tgtU] 0 [ReadResult.ok [65]] fsW).2)) :=
  ⟨(c8_all_or_nothing Platform.linux netC8 benvW "-" ["ok:1", "bad:1"] false none
      [ReadResult.ok [65]] 0 fsW).1 "parsing socket address" rfl,
    (c8_all_or_nothing Platform.linux netC8 benvW "-" ["ok:1"] false none
      [ReadResult.ok [65]] 0 fsW).2 [tgtU] rfl⟩

/-- Claim C9 counterexample: a failed read makes the while-let pattern
fall through, the loop ends, and client_socket_stream returns Ok — the
session ends as a successful completion, not as a fatal error. -/
theorem c9_counterexample :
    streamLoop benvW false none [tgtU] 0 [ReadResult.err] fsW =
      ([Ev.readEv ReadResult.err], Except.ok fsW) := rfl

/-- Claim C9 as amended: a failure of a read from the input source
terminates the streaming loop immediately — nothing after it is processed —
but the session then ends as a successful completion (the function returns
Ok), not as a fatal, process-terminating error. -/
theorem c9_read_error_ends_ok (env : BackupEnv) (tee : Bool) (itv : Option Nat)
    (targets : List SockAddr) (now : Int) :
    ∀ rest fs, streamLoop env tee itv targets now (ReadResult.err :: rest) fs =
      ([Ev.readEv ReadResult.err], Except.ok fs) := fun _ _ => rfl

/-- Claim C10: all backup io is gated on the interval: with
backup_interval = None the loop performs no backup io at all (no directory
creation, no append, no removal, and the directory state is unchanged on
success), and whenever backup_data is invoked from the loop the interval is
Some, so every backup write is accompanied by the retention sweep in the
same call: after a successful iteration the chunk was appended and no
surviving directory entry is an expired, deletable .log file. -/
theorem c10_backup_gating (env : BackupEnv) (tee : Bool) (itv : Option Nat)
    (targets : List SockAddr) (now : Int) :
    (itv = none → ∀ reads fs,
      (streamLoop env tee itv targets now reads fs).1.filter Ev.isFsEv = [] ∧
      (∀ fs', (streamLoop env tee itv targets now reads fs).2 = Except.ok fs' →
        fs' = fs)) ∧
    (∀ d chunk fs fs1, itv = some d →
      (processChunk env tee itv targets now chunk fs).2 = Except.ok fs1 →
      Ev.appendFile (dateFileName now) chunk ∈
          (processChunk env tee itv targets now chunk fs).1 ∧
      ∀ e ∈ fs1.entries,
        ¬(endsLog e.name = true ∧ env.deleteFails e.name = false ∧
          ∃ y mo dd, parseDate (List.take 10 e.name) = some (y, mo, dd) ∧
            daysFromCivil y mo dd * 86400 < now - (d : Int) * 86400)) := by
  constructor
  · rintro rfl reads fs
    exact streamLoop_none_fs env tee targets now reads fs
  · rintro d chunk fs fs1 rfl hpc
    cases hb : (backup_data env now chunk (some d) fs).2 with
    | error m =>
      rw [processChunk_some_err env tee d targets now chunk fs m hb] at hpc
      exact absurd hpc (by simp)
    | ok fs2 =>
      have hsh := processChunk_some_ok env tee d targets now chunk fs fs2 hb
      have hfs : fs1 = fs2 := by
        rw [hsh] at hpc
        exact (Except.ok.inj hpc).symm
      subst hfs
      constructor
      · rw [hsh]
        obtain ⟨tl, htl⟩ := backup_data_evs_head env now chunk (some d) fs
        rw [htl]
        simp
      · intro e he hcontra
        have hex : ∃ l, (sweep env now d
            (appendEntry (dateFileName now) chunk fs.entries)).2 = Except.ok l ∧
            fs1 = ⟨true, l⟩ := by
          simp only [backup_data] at hb
          cases hs : (sweep env now d
              (appendEntry (dateFileName now) chunk fs.entries)).2 with
          | error m => rw [hs] at hb; simp [Except.map] at hb
          | ok l =>
            rw [hs] at hb
            simp only [Except.map] at hb
            exact ⟨l, rfl, (Except.ok.inj hb).symm⟩
        obtain ⟨l, hs, hfs2⟩ := hex
        subst hfs2
        have hrem := sweep_ok_not_removed env now d _ l hs e he
        have := (removedBySweep_iff env now d e).mpr hcontra
        rw [hrem] at this
        exact absurd this (by simp)

/-- Witness for C10: with no interval a concrete session performs no backup
io; with a one-day interval a concrete chunk write appends and sweeps in
the same call. -/
theorem c10_backup_gating_witness :
    ((streamLoop benvW false none [tgtU] 0 [ReadResult.ok [65]] fsW).1.filter
        Ev.isFsEv = [] ∧
      (∀ fs', (streamLoop benvW false none [tgtU] 0 [ReadResult.ok [65]] fsW).2 =
          Except.ok fs' → fs' = fsW)) ∧
    (Ev.appendFile (dateFileName 1700000000) [65] ∈
        (processChunk benvW false (some 1) [] 1700000000 [65] fsW).1 ∧
      ∀ e ∈ (⟨true, [⟨strBytes "2023-11-14.log", [65]⟩]⟩ : BackupFs).entries,
        ¬(endsLog e.name = true ∧ benvW.deleteFails e.name = false ∧
          ∃ y mo dd, parseDate (List.take 10 e.name) = some (y, mo, dd) ∧
            daysFromCivil y mo dd * 86400 < 1700000000 - (1 : Int) * 86400)) :=
  ⟨(c10_backup_gating benvW false none [tgtU] 0).1 rfl [ReadResult.ok [65]] fsW,
    (c10_backup_gating benvW false (some 1) [] 1700000000).2 1 [65] fsW
      ⟨true, [⟨strBytes "2023-11-14.log", [65]⟩]⟩ rfl rfl⟩
